import Mathlib

/-
Verification of the sandboxed project file access and external worker
invocation subsystem of the scriptwriter repository (src/src-tauri/src).

Shallow embedding conventions:
* Path strings from the Rust code are modelled as `List Char`.
* Both `/` and `\` are treated as directory separators, following the code's
  own handling (it strips both as leading separators and normalizes `\` to `/`
  in `to_relative_string`), i.e. the `std::path` component semantics on
  Windows.  Drive-letter and UNC prefixes are not modelled: inputs here are
  project-relative path strings.
* Whitespace trimming (`str::trim`) is modelled over the ASCII whitespace
  characters recognised by `Char.isWhitespace`.
* Filesystem state and subprocess results enter as explicit parameters
  (oracles); fallible Rust functions returning `AppResult<T>` become
  `Except AppError T`.
-/

namespace Scriptwriter

/-- Convert a Lean string literal to the `List Char` path representation. -/
def toChars (s : String) : List Char := s.data

/-- Embedding of `error.rs` `AppError`.  `message` is `AppError::Message` (its
`Display` is the carried text), `unauthorized` is `AppError::Unauthorized`
(displayed as "Unauthorized"), `json` stands for the transparent
`AppError::Json` wrapper around a serde error, carrying its display text. -/
inductive AppError where
  | message : List Char → AppError
  | unauthorized : AppError
  | json : List Char → AppError
deriving DecidableEq, Repr

/-- `AppError::to_string()` via the `thiserror` derive in `error.rs`. -/
def errString : AppError → List Char
  | .message m => m
  | .unauthorized => toChars "Unauthorized"
  | .json m => m

/-- Minimal embedding of `models.rs` `UserProfile`: the claims only need an
inhabitant standing for a logged-in user, identified here by its id. -/
structure UserProfile where
  id : List Char
deriving DecidableEq, Repr

/-! ## Path model (PathSandbox, `commands.rs` lines 42-70) -/

/-- Directory separator characters.  The code treats both `/` and `\` as
separators (`trim_start_matches(['/', '\\'])`, the `\`-to-`/` normalization in
`to_relative_string`); this matches `std::path` on Windows. -/
def isSep (c : Char) : Bool := c == '/' || c == '\\'

/-- Does a segment end here: either the string ends or a separator follows. -/
def segEndOk : List Char → Bool
  | [] => true
  | d :: _ => isSep d

/-- Does the list start with the exact segment `..` (two dots followed by a
separator or the end of the string)? -/
def startsWithDotDot : List Char → Bool
  | c1 :: c2 :: rest => c1 == '.' && c2 == '.' && segEndOk rest
  | _ => false

/-- Scanner for `Path::components().any(|c| matches!(c, Component::ParentDir))`:
the flag records whether the scan position is at the start of a segment. -/
def hasParentAux : Bool → List Char → Bool
  | _, [] => false
  | atStart, c :: rest =>
    if isSep c then hasParentAux true rest
    else if atStart && startsWithDotDot (c :: rest) then true
    else hasParentAux false rest

/-- Does the path contain a `..` component (`Component::ParentDir`)? -/
def hasParentSeg (s : List Char) : Bool := hasParentAux true s

/-- `Path::is_absolute` for prefix-free paths: starts with a separator. -/
def is_absolute : List Char → Bool
  | [] => false
  | c :: _ => isSep c

/-- `str::trim_end` over ASCII whitespace: drop trailing whitespace. -/
def trimRight : List Char → List Char
  | [] => []
  | c :: rest =>
    let r := trimRight rest
    if r.isEmpty && c.isWhitespace then [] else c :: r

/-- `str::trim` over ASCII whitespace. -/
def trim (s : List Char) : List Char := trimRight (s.dropWhile Char.isWhitespace)

/-- Does the path end with a separator (used by the `join` model)? -/
def endsWithSep (s : List Char) : Bool :=
  match s.getLast? with
  | some c => isSep c
  | none => false

/-- `base.join(rel)` (`PathBuf::push`) for a non-absolute `rel`: append a
separator if `base` is non-empty and does not already end in one, then the
relative path's text unchanged.  `/` is used as the inserted separator; the
choice is immaterial to `to_relative_string`, which normalizes both. -/
def joinPath (base rel : List Char) : List Char :=
  if base.isEmpty then rel
  else if endsWithSep base then base ++ rel
  else base ++ '/' :: rel

/-- `commands.rs` `resolve_project_path` (lines 42-63): trim whitespace, fail
when empty, strip leading separators, fail when absolute, fail when any
component is `..`, otherwise join onto the project base. -/
def resolve_project_path (base relative : List Char) : Except AppError (List Char) :=
  let trimmed := trim relative
  if trimmed.isEmpty then
    .error (.message (toChars "File path cannot be empty"))
  else
    let normalized := trimmed.dropWhile isSep
    if is_absolute normalized then
      .error (.message (toChars "File path must be relative to the project"))
    else if hasParentSeg normalized then
      .error (.message (toChars "File path cannot navigate upwards"))
    else
      .ok (joinPath base normalized)

/-- `Components::trim_left`: drop leading redundant separators and leading
`.` components (a dot followed by a separator or the end) from a remainder
whose iteration is mid-path.  A `..` component parses as `ParentDir`, not as
nothing, so it stops the trimming, as does any normal name. -/
def trimLeftAsPath : List Char → List Char
  | [] => []
  | c :: rest =>
    if isSep c then trimLeftAsPath rest
    else if c == '.' && segEndOk rest then trimLeftAsPath rest
    else c :: rest

/-- `Components::trim_right`: drop trailing redundant separators and trailing
`.` components; implemented as the left trim on the reversed text (a trailing
`.` component reads, from the right, as a dot followed by a separator or the
start of the remainder). -/
def trimRightAsPath (s : List Char) : List Char :=
  (trimLeftAsPath s.reverse).reverse

/-- `Components::as_path` applied to the remainder of a partially consumed
component iterator: both edges are trimmed of redundant separators and `.`
components; interior `.` components and interior redundant separators are
kept in the text. -/
def asPathTrim (s : List Char) : List Char := trimRightAsPath (trimLeftAsPath s)

/-- `Path::strip_prefix(base)` for the joined paths this code produces: the
raw remainder is the part of `path` after `base` and its separator, `none`
when `path` does not lie under `base`.  The returned value is
`Components::as_path` of the remaining component iterator, which trims
redundant separators and `.` components from the remainder's edges; when
`base` is empty no components are consumed, the iterator is still at its
start, and `as_path` returns the path text untrimmed. -/
def stripBase (base path : List Char) : Option (List Char) :=
  if base.isEmpty then some path
  else if path = base then some []
  else
    let pre := if endsWithSep base then base else base ++ ['/']
    if pre.isPrefixOf path then some (asPathTrim (path.drop pre.length)) else none

/-- The `.replace('\\', "/")` normalization of `to_relative_string`. -/
def slashify (s : List Char) : List Char :=
  s.map (fun c => if c == '\\' then '/' else c)

/-- `commands.rs` `to_relative_string` (lines 65-70): strip the base prefix
(failing when the path escapes the project directory) and normalize directory
separators to `/`. -/
def to_relative_string (base path : List Char) : Except AppError (List Char) :=
  match stripBase base path with
  | some rel => .ok (slashify rel)
  | none => .error (.message (toChars "Path escapes project directory"))

/-- The normalized form of a relative path as the spec's round-trip claim
words it: whitespace trimmed, leading separators stripped, separators
normalized to `/`.  Stated from the spec's words, to be compared with
`programNormalizeRel`, the form the code actually returns. -/
def normalizeRel (p : List Char) : List Char :=
  slashify ((trim p).dropWhile isSep)

/-- The relative form the program actually round-trips to: on top of the
spec's normalization, `strip_prefix`'s component iterator also trims
redundant separators and `.` components from both edges of the remainder
(e.g. `./a` comes back as `a`, `a/` as `a`, `.` as the empty string). -/
def programNormalizeRel (p : List Char) : List Char :=
  slashify (asPathTrim ((trim p).dropWhile isSep))

/-! ## WorkerBridge (`ml_bridge.rs`)

The external worker is an untrusted subprocess; its behavior enters the model
as explicit parameters: a `ProcOutput` for a completed process, or an
`Except AppError _` for the whole blocking invocation. -/

namespace MlBridge

/-- A raw JSON document; `serde_json::Value` results are modelled by their
text, since the claims only pass them through unchanged. -/
abbrev JsonValue := List Char

/-- The captured output of a finished worker process (`std::process::Output`):
exit code (`success()` iff zero), standard output bytes, standard error bytes
after UTF-8-lossy decoding. -/
structure ProcOutput where
  exitCode : Int
  stdout : List Char
  stderr : List Char
deriving DecidableEq, Repr

/-- `output.status.success()`. -/
def statusSuccess (o : ProcOutput) : Bool := o.exitCode == 0

/-- `ml_bridge.rs` `fallback_transliteration` (lines 215-217): the original
input as the sole candidate. -/
def fallback_transliteration (text : List Char) : List (List Char) := [text]

/-- `ml_bridge.rs` `transliterate_english_to_tamil` (lines 17-36).  The
`worker` parameter stands for the result of the blocking
`invoke_python_transliteration` call (worker-root discovery, spawn, exit
status, JSON parse); a `spawn_blocking` join error is handled identically to a
worker error (both arms call `fallback_transliteration`), so both are the
`.error` case.  Empty-after-trim input returns `Ok(Vec::new())` before the
worker is ever consulted — the result does not depend on `worker`. -/
def transliterate_english_to_tamil (worker : Except AppError (List (List Char)))
    (input : List Char) : Except AppError (List (List Char)) :=
  if (trim input).isEmpty then .ok []
  else
    match worker with
    | .ok out => .ok out
    | .error _ => .ok (fallback_transliteration input)

/-- Completion handling of `ml_bridge.rs` `invoke_python_stt_file` (lines
219-243) from the point where the worker process has produced `output`:
non-zero exit fails with `Message("Python STT failed: <stderr>")`; zero exit
parses standard output as JSON (`parseJson` models `serde_json::from_slice`,
its error display carried by `AppError.json`). -/
def invoke_python_stt_file (parseJson : List Char → Except (List Char) JsonValue)
    (output : ProcOutput) : Except AppError JsonValue :=
  if statusSuccess output then
    match parseJson output.stdout with
    | .ok v => .ok v
    | .error e => .error (.json e)
  else
    .error (.message (toChars "Python STT failed: " ++ output.stderr))

/-- Completion handling of `ml_bridge.rs` `invoke_python_stt_mic` (lines
245-270); identical completion policy to the file variant. -/
def invoke_python_stt_mic (parseJson : List Char → Except (List Char) JsonValue)
    (output : ProcOutput) : Except AppError JsonValue :=
  if statusSuccess output then
    match parseJson output.stdout with
    | .ok v => .ok v
    | .error e => .error (.json e)
  else
    .error (.message (toChars "Python STT failed: " ++ output.stderr))

end MlBridge

/-! ## DirectoryTreeBuilder (`commands.rs` lines 72-136) -/

/-- One entry yielded by `fs::read_dir`: its file name and whether
`file_type()?.is_dir()`. -/
structure FSEntry where
  name : List Char
  isDir : Bool
deriving DecidableEq, Repr

/-- The filesystem as a read oracle: `read_dir` on an absolute directory path
(`none` when the directory does not exist).  I/O errors from `read_dir` are
not modelled; the claims under proof do not involve them. -/
abbrev FS := List Char → Option (List FSEntry)

/-- `commands.rs` `ProjectFileEntry`: name, project-relative path, directory
flag, and children (present only for directories with non-empty contents). -/
inductive ProjectFileEntry where
  | mk : (name : List Char) → (path : List Char) → (isDir : Bool) →
      (children : Option (List ProjectFileEntry)) → ProjectFileEntry

/-- The entry's file name. -/
def ProjectFileEntry.name : ProjectFileEntry → List Char
  | .mk n _ _ _ => n

/-- The entry's `is_directory` flag. -/
def ProjectFileEntry.isDir : ProjectFileEntry → Bool
  | .mk _ _ d _ => d

/-- `commands.rs` `MAX_TREE_DEPTH` (line 82). -/
def MAX_TREE_DEPTH : Nat := 8

/-- Does the file name start with a dot (`name.starts_with('.')`)? -/
def startsWithDot : List Char → Bool
  | [] => false
  | c :: _ => c == '.'

/-- Lexicographic comparison of char lists (`Ord`-style), modelling `str::cmp`. -/
def cmpChars : List Char → List Char → Ordering
  | [], [] => .eq
  | [], _ :: _ => .lt
  | _ :: _, [] => .gt
  | a :: as, b :: bs =>
    match compare a b with
    | .eq => cmpChars as bs
    | o => o

/-- The sort comparator of `build_directory_entries` (lines 129-133):
directories before files, then case-insensitive name order (`to_lowercase`
modelled by ASCII `Char.toLower`). -/
def entryCmp (a b : ProjectFileEntry) : Ordering :=
  match a.isDir, b.isDir with
  | true, false => .lt
  | false, true => .gt
  | _, _ => cmpChars (a.name.map Char.toLower) (b.name.map Char.toLower)

/-- Stable insertion preserving the original order of entries that compare
equal, modelling the stable `Vec::sort_by`. -/
def insertEntry (x : ProjectFileEntry) : List ProjectFileEntry → List ProjectFileEntry
  | [] => [x]
  | y :: ys => if entryCmp x y == .lt then x :: y :: ys else y :: insertEntry x ys

/-- Stable sort by `entryCmp`, modelling `entries.sort_by(...)`. -/
def sortEntries : List ProjectFileEntry → List ProjectFileEntry
  | [] => []
  | x :: xs => insertEntry x (sortEntries xs)

mutual

/-- The recursion of `commands.rs` `build_directory_entries`, keyed by the
remaining depth allowance `MAX_TREE_DEPTH + 1 - depth`: the source guard
`depth > MAX_TREE_DEPTH` returning empty is exactly the `0` case here, and
each recursive call at `depth + 1` is a call with allowance one less. -/
def buildEntriesAux (fs : FS) (base : List Char) :
    Nat → List Char → Except AppError (List ProjectFileEntry)
  | 0, _ => .ok []
  | fuel + 1, dir =>
    match fs dir with
    | none => .ok []
    | some items =>
      match buildEntriesItems fs base fuel dir items with
      | .ok raw => .ok (sortEntries raw)
      | .error e => .error e
termination_by fuel _ => (fuel, 0)

/-- The loop body of `build_directory_entries` over the entries of `dir`:
skip dotfiles, compute the project-relative path via `to_relative_string`
(propagating its error), recurse into subdirectories, and attach `children`
only when the nested listing is non-empty. -/
def buildEntriesItems (fs : FS) (base : List Char) (fuel : Nat) (dir : List Char) :
    List FSEntry → Except AppError (List ProjectFileEntry)
  | [] => .ok []
  | e :: rest =>
    if startsWithDot e.name then buildEntriesItems fs base fuel dir rest
    else
      let path := joinPath dir e.name
      match to_relative_string base path with
      | .error err => .error err
      | .ok rel =>
        match (if e.isDir then
                 match buildEntriesAux fs base fuel path with
                 | .ok nested => .ok (if nested.isEmpty then none else some nested)
                 | .error err => .error err
               else (.ok none : Except AppError (Option (List ProjectFileEntry)))) with
        | .error err => .error err
        | .ok children =>
          match buildEntriesItems fs base fuel dir rest with
          | .error err => .error err
          | .ok tail => .ok (ProjectFileEntry.mk e.name rel e.isDir children :: tail)
termination_by items => (fuel, items.length + 1)

end

/-- `commands.rs` `build_directory_entries` (lines 84-136): returns empty once
`depth` exceeds `MAX_TREE_DEPTH`, otherwise lists `dir` recursively.  Being a
total Lean function of an arbitrary `fs` oracle — including cyclic ones such
as a self-referential symlink — it terminates on every directory structure. -/
def build_directory_entries (fs : FS) (base dir : List Char) (depth : Nat) :
    Except AppError (List ProjectFileEntry) :=
  if depth > MAX_TREE_DEPTH then .ok []
  else buildEntriesAux fs base (MAX_TREE_DEPTH + 1 - depth) dir

/-! ## AssetImporter (`commands.rs` `copy_project_asset`, lines 629-700) -/

/-- `Path::file_stem` / `Path::extension` of a file name: split at the last
dot, except that a lone leading dot (hidden file) yields no extension. -/
def splitAtLastDot (n : List Char) : List Char × Option (List Char) :=
  let rev := n.reverse
  let revExt := rev.takeWhile (fun c => !(c == '.'))
  if revExt.length == rev.length then (n, none)
  else
    let stemRev := rev.drop (revExt.length + 1)
    if stemRev.isEmpty then (n, none)
    else (stemRev.reverse, some revExt.reverse)

/-- The candidate name `format!("stem-counter.ext")` (or without extension)
built by the collision loop, lines 673-679. -/
def nameWithCounter (stem : List Char) (ext : Option (List Char)) (k : Nat) : List Char :=
  stem ++ '-' :: (toString k).data ++
    (match ext with
     | some e => '.' :: e
     | none => [])

/-- The collision loop of `copy_project_asset` (lines 663-685): try
`stem-k.ext` for `k = 1, 2, ...` until a name not present in the target
directory is found.  The Rust loop is unbounded; here it carries fuel, and
`fuel = existing.length + 1` always suffices (the suffixed names are pairwise
distinct, so they cannot all occur among `existing.length` entries), making
the `none` case — the loop running forever — unreachable in the model's use. -/
def searchFree (existing : List (List Char)) (stem : List Char)
    (ext : Option (List Char)) : Nat → Nat → Option (List Char)
  | 0, _ => none
  | fuel + 1, k =>
    let cand := nameWithCounter stem ext k
    if existing.contains cand then searchFree existing stem ext fuel (k + 1)
    else some cand

/-- The target-name selection of `copy_project_asset` (lines 657-685), given
the file names already `existing` in the target directory and the sanitized
source name (non-empty, after the `"asset"` substitution of lines 658-660):
keep the sanitized name when free, otherwise probe numeric suffixes from 1. -/
def chooseAssetName (existing : List (List Char)) (sanitized : List Char) :
    Option (List Char) :=
  if existing.contains sanitized then
    let (stem, ext) := splitAtLastDot sanitized
    searchFree existing stem ext (existing.length + 1) 1
  else some sanitized

/-! ## OperationDispatch (`commands.rs` Tauri commands)

Each command model takes the session (`AppState::current_user`) and the
effectful collaborators as explicit parameters: the project-registry lookup
`fetch_project_row` becomes an `Except AppError base_path` oracle, the
worker bridge becomes its `Except AppError _` result, and the filesystem
becomes a read oracle.  Errors are surfaced as their display strings
(`map_err(|err| err.to_string())`). -/

namespace Commands

open MlBridge

/-- `commands.rs` `require_session` (lines 23-25). -/
def require_session (session : Option UserProfile) : Except AppError UserProfile :=
  match session with
  | some u => .ok u
  | none => .error .unauthorized

/-- Command `transliterate_english_to_tamil` (lines 434-448): session check,
then the bridge call with its fallback policy. -/
def transliterate_english_to_tamil (session : Option UserProfile)
    (worker : Except AppError (List (List Char))) (text : List Char) :
    Except (List Char) (List (List Char)) :=
  match require_session session with
  | .error e => .error (errString e)
  | .ok _ =>
    match MlBridge.transliterate_english_to_tamil worker text with
    | .ok cands => .ok cands
    | .error e => .error (errString e)

/-- Command `transcribe_audio_file` (lines 450-462): session check, then the
bridge result is passed through. -/
def transcribe_audio_file (session : Option UserProfile)
    (bridge : Except AppError JsonValue) : Except (List Char) JsonValue :=
  match require_session session with
  | .error e => .error (errString e)
  | .ok _ => bridge.mapError errString

/-- Command `record_from_microphone` (lines 464-477). -/
def record_from_microphone (session : Option UserProfile)
    (bridge : Except AppError JsonValue) : Except (List Char) JsonValue :=
  match require_session session with
  | .error e => .error (errString e)
  | .ok _ => bridge.mapError errString

/-- Command `synthesize_speech` (lines 479-491). -/
def synthesize_speech (session : Option UserProfile)
    (bridge : Except AppError JsonValue) : Except (List Char) JsonValue :=
  match require_session session with
  | .error e => .error (errString e)
  | .ok _ => bridge.mapError errString

/-- Command `generate_ai_scene` (lines 493-506). -/
def generate_ai_scene (session : Option UserProfile)
    (bridge : Except AppError JsonValue) : Except (List Char) JsonValue :=
  match require_session session with
  | .error e => .error (errString e)
  | .ok _ => bridge.mapError errString

/-- Command `refresh_model_inventory` (lines 540-551). -/
def refresh_model_inventory (session : Option UserProfile)
    (bridge : Except AppError (List JsonValue)) :
    Except (List Char) (List JsonValue) :=
  match require_session session with
  | .error e => .error (errString e)
  | .ok _ => bridge.mapError errString

/-- Command `list_project_files` (lines 553-569): session check, project row
fetch (`projectBase` oracle yields the project's `base_path`), then the
directory tree build starting at depth 0. -/
def list_project_files (session : Option UserProfile)
    (projectBase : Except AppError (List Char)) (fs : FS) :
    Except (List Char) (List ProjectFileEntry) :=
  match require_session session with
  | .error e => .error (errString e)
  | .ok _ =>
    match projectBase with
    | .error e => .error (errString e)
    | .ok base =>
      match build_directory_entries fs base base 0 with
      | .ok entries => .ok entries
      | .error e => .error (errString e)

/-- Command `load_markdown_file` (lines 571-594): session check, project row
fetch, path resolution, then the file is read when it exists and an empty
string is returned when it does not.  `readFile` models
`exists` + `fs::read_to_string` as a partial map (read errors unmodelled). -/
def load_markdown_file (session : Option UserProfile)
    (projectBase : Except AppError (List Char))
    (readFile : List Char → Option (List Char)) (filePath : List Char) :
    Except (List Char) (List Char) :=
  match require_session session with
  | .error e => .error (errString e)
  | .ok _ =>
    match projectBase with
    | .error e => .error (errString e)
    | .ok base =>
      match resolve_project_path base filePath with
      | .error e => .error (errString e)
      | .ok target =>
        match readFile target with
        | some content => .ok content
        | none => .ok []

/-- Command `save_markdown_file` (lines 596-627): session check, project row
fetch, path resolution; the directory creation and write are effects outside
the model, and the response is the saved path relative to the project. -/
def save_markdown_file (session : Option UserProfile)
    (projectBase : Except AppError (List Char)) (filePath : List Char) :
    Except (List Char) (List Char) :=
  match require_session session with
  | .error e => .error (errString e)
  | .ok _ =>
    match projectBase with
    | .error e => .error (errString e)
    | .ok base =>
      match resolve_project_path base filePath with
      | .error e => .error (errString e)
      | .ok target =>
        match to_relative_string base target with
        | .ok rel => .ok rel
        | .error e => .error (errString e)

/-- Command `copy_project_asset` (lines 629-700): session check, project row
fetch, source-existence check, target-directory resolution (default
`assets/images`), sanitization of the source file name (`sanitizeFn` models
the external `sanitize_filename::sanitize`, with the `"asset"` substitution
when it yields an empty string), collision-free name selection against the
names `existing` in the target directory, and the copied file's
project-relative path as the response.  The unreachable fuel-exhaustion case
of `chooseAssetName` is mapped to an error (it models the Rust loop not
terminating, which cannot happen against a finite directory). -/
def copy_project_asset (session : Option UserProfile)
    (projectBase : Except AppError (List Char))
    (sanitizeFn : List Char → List Char) (sourceName : Option (List Char))
    (sourceExists : Bool) (targetDirOpt : Option (List Char))
    (existing : List (List Char)) : Except (List Char) (List Char) :=
  match require_session session with
  | .error e => .error (errString e)
  | .ok _ =>
    match projectBase with
    | .error e => .error (errString e)
    | .ok base =>
      if !sourceExists then .error (toChars "Selected file does not exist")
      else
        let targetDirRelative := targetDirOpt.getD (toChars "assets/images")
        match resolve_project_path base targetDirRelative with
        | .error e => .error (errString e)
        | .ok targetDir =>
          match sourceName with
          | none => .error (toChars "Invalid source file")
          | some originalName =>
            let s0 := sanitizeFn originalName
            let sanitized := if s0.isEmpty then toChars "asset" else s0
            match chooseAssetName existing sanitized with
            | none => .error (toChars "collision search did not terminate")
            | some freeName =>
              match to_relative_string base (joinPath targetDir freeName) with
              | .ok rel => .ok rel
              | .error e => .error (errString e)

end Commands

/-! ## Shared lemmas -/

instance {ε α : Type} [DecidableEq ε] [DecidableEq α] : DecidableEq (Except ε α) := fun a b =>
  match a, b with
  | .ok x, .ok y =>
    if h : x = y then isTrue (by rw [h]) else isFalse (fun hc => h (Except.ok.inj hc))
  | .error x, .error y =>
    if h : x = y then isTrue (by rw [h]) else isFalse (fun hc => h (Except.error.inj hc))
  | .ok _, .error _ => isFalse (fun hc => Except.noConfusion hc)
  | .error _, .ok _ => isFalse (fun hc => Except.noConfusion hc)

/-- Separator characters are not whitespace. -/
theorem isSep_not_whitespace {c : Char} (h : isSep c = true) : c.isWhitespace = false := by
  have h2 : c = '/' ∨ c = '\\' := by simpa [isSep] using h
  rcases h2 with h1 | h1 <;> subst h1 <;> decide

/-- `trimRight` keeps a non-whitespace head and everything before it. -/
theorem trimRight_cons_of_ne_ws (c : Char) (l : List Char)
    (h : c.isWhitespace = false) : trimRight (c :: l) = c :: trimRight l := by
  have hcond : ((trimRight l).isEmpty && c.isWhitespace) = false := by
    rw [h]; exact Bool.and_false _
  show (if (trimRight l).isEmpty && c.isWhitespace then [] else c :: trimRight l) =
    c :: trimRight l
  rw [hcond]; rfl

/-- `trimRight` keeps the head when the trimmed tail is non-empty. -/
theorem trimRight_cons_of_ne_nil (c : Char) (l : List Char)
    (h : (trimRight l).isEmpty = false) : trimRight (c :: l) = c :: trimRight l := by
  have hcond : ((trimRight l).isEmpty && c.isWhitespace) = false := by
    rw [h]; exact Bool.false_and _
  show (if (trimRight l).isEmpty && c.isWhitespace then [] else c :: trimRight l) =
    c :: trimRight l
  rw [hcond]; rfl

/-- `trimRight` is the identity on separator-only strings. -/
theorem trimRight_sepOnly (s : List Char) (h : ∀ c ∈ s, isSep c = true) :
    trimRight s = s := by
  induction s with
  | nil => rfl
  | cons c rest ih =>
    have hws : c.isWhitespace = false := isSep_not_whitespace (h c (by simp))
    have ih2 : trimRight rest = rest := ih (fun x hx => h x (by simp [hx]))
    simp [trimRight, ih2, hws]

/-- `trim` is the identity on separator-only strings. -/
theorem trim_sepOnly (s : List Char) (h : ∀ c ∈ s, isSep c = true) : trim s = s := by
  have hdw : s.dropWhile Char.isWhitespace = s := by
    cases s with
    | nil => rfl
    | cons c rest =>
      have hws : c.isWhitespace = false := isSep_not_whitespace (h c (by simp))
      simp [List.dropWhile_cons, hws]
  rw [trim, hdw, trimRight_sepOnly s h]

/-- Whitespace characters are not separators. -/
theorem ws_not_sep {c : Char} (h : c.isWhitespace = true) : isSep c = false := by
  have h2 : ((c = ' ' ∨ c = '\t') ∨ c = '\r') ∨ c = '\n' := by
    simpa [Char.isWhitespace] using h
  rcases h2 with ((h1 | h1) | h1) | h1 <;> subst h1 <;> decide

/-- Whitespace characters are not dots. -/
theorem ws_not_dot {c : Char} (h : c.isWhitespace = true) : (c == '.') = false := by
  have h2 : ((c = ' ' ∨ c = '\t') ∨ c = '\r') ∨ c = '\n' := by
    simpa [Char.isWhitespace] using h
  rcases h2 with ((h1 | h1) | h1) | h1 <;> subst h1 <;> decide

/-- A dot is not a separator. -/
theorem isSep_dot : isSep '.' = false := by decide

/-- A list not starting with a dot does not start with the `..` segment. -/
theorem startsWithDotDot_of_ne_dot {c : Char} (l : List Char)
    (h : (c == '.') = false) : startsWithDotDot (c :: l) = false := by
  cases l with
  | nil => rfl
  | cons c2 rest => simp [startsWithDotDot, h]

/-- A `..` segment found while scanning mid-segment is also found when the
scan starts at a segment boundary. -/
theorem hasParentAux_mono {s : List Char} (h : hasParentAux false s = true) :
    hasParentAux true s = true := by
  cases s with
  | nil => simp [hasParentAux] at h
  | cons c rest =>
    by_cases hc : isSep c = true
    · simpa [hasParentAux, hc] using h
    · have hc' : isSep c = false := by simpa using hc
      have h' : hasParentAux false rest = true := by
        simpa [hasParentAux, hc'] using h
      by_cases hd : startsWithDotDot (c :: rest) = true
      · simp [hasParentAux, hc', hd]
      · have hd' : startsWithDotDot (c :: rest) = false := by simpa using hd
        simp [hasParentAux, hc', hd', h']

/-- Dropping leading whitespace preserves the presence of a `..` segment. -/
theorem hasParentSeg_dropWhile_ws (s : List Char) (h : hasParentSeg s = true) :
    hasParentSeg (s.dropWhile Char.isWhitespace) = true := by
  induction s with
  | nil => simp [hasParentSeg, hasParentAux] at h
  | cons c rest ih =>
    by_cases hw : c.isWhitespace = true
    · have hs : isSep c = false := ws_not_sep hw
      have hd : startsWithDotDot (c :: rest) = false :=
        startsWithDotDot_of_ne_dot rest (ws_not_dot hw)
      have h' : hasParentAux false rest = true := by
        simpa [hasParentSeg, hasParentAux, hs, hd] using h
      have h'' : hasParentSeg rest = true := hasParentAux_mono h'
      simpa [List.dropWhile_cons, hw] using ih h''
    · have hw' : c.isWhitespace = false := by simpa using hw
      simpa [List.dropWhile_cons, hw'] using h

/-- Trimming trailing whitespace preserves the presence of a `..` segment:
a genuine `..` segment is followed by a separator or the end of the string,
neither of which is affected by removing trailing whitespace. -/
theorem hasParentAux_trimRight (s : List Char) :
    ∀ b : Bool, hasParentAux b s = true → hasParentAux b (trimRight s) = true := by
  induction s with
  | nil => intro b h; simp [hasParentAux] at h
  | cons c rest ih =>
    intro b h
    by_cases hc : isSep c = true
    · have hws : c.isWhitespace = false := isSep_not_whitespace hc
      have h' : hasParentAux true rest = true := by simpa [hasParentAux, hc] using h
      have ih' := ih true h'
      simp only [trimRight, hws, Bool.and_false, if_neg (by simp : ¬((trimRight rest).isEmpty && false) = true)]
      simpa [hasParentAux, hc] using ih'
    · have hc' : isSep c = false := by simpa using hc
      by_cases hd : (b && startsWithDotDot (c :: rest)) = true
      · have hd12 := hd
        simp only [Bool.and_eq_true] at hd12
        obtain ⟨hb, hdd⟩ := hd12
        subst hb
        cases rest with
        | nil => exact absurd hdd (by simp [startsWithDotDot])
        | cons c2 rest2 =>
          have hdd2 := hdd
          simp only [startsWithDotDot, Bool.and_eq_true] at hdd2
          have hc1 : c = '.' := eq_of_beq hdd2.1.1
          have hc2 : c2 = '.' := eq_of_beq hdd2.1.2
          have hseg : segEndOk rest2 = true := hdd2.2
          subst hc1; subst hc2
          cases rest2 with
          | nil => decide
          | cons d tail =>
            have hd' : isSep d = true := hseg
            have hwd : d.isWhitespace = false := isSep_not_whitespace hd'
            have hdne : trimRight (d :: tail) = d :: trimRight tail :=
              trimRight_cons_of_ne_ws d tail hwd
            have h1 : trimRight ('.' :: d :: tail) = '.' :: d :: trimRight tail := by
              rw [trimRight_cons_of_ne_ws '.' (d :: tail) (by decide), hdne]
            have h2 : trimRight ('.' :: '.' :: d :: tail) =
                '.' :: '.' :: d :: trimRight tail := by
              rw [trimRight_cons_of_ne_ws '.' ('.' :: d :: tail) (by decide), h1]
            have hsw : startsWithDotDot ('.' :: '.' :: d :: trimRight tail) = true := by
              simp [startsWithDotDot, segEndOk, hd']
            rw [h2]
            simp [hasParentAux, hsw, isSep_dot]
      · have hd' : (b && startsWithDotDot (c :: rest)) = false := by simpa using hd
        have h' : hasParentAux false rest = true := by
          simpa [hasParentAux, hc', hd'] using h
        have ih' := ih false h'
        have hrne : trimRight rest ≠ [] := by
          intro hnil
          rw [hnil] at ih'
          simp [hasParentAux] at ih'
        have hre : (trimRight rest).isEmpty = false := by
          cases htr : trimRight rest with
          | nil => exact absurd htr hrne
          | cons _ _ => rfl
        have htc : trimRight (c :: rest) = c :: trimRight rest :=
          trimRight_cons_of_ne_nil c rest hre
        rw [htc]
        by_cases hd2 : (b && startsWithDotDot (c :: trimRight rest)) = true
        · simp [hasParentAux, hc', hd2]
        · have hd2' : (b && startsWithDotDot (c :: trimRight rest)) = false := by
            simpa using hd2
          simp [hasParentAux, hc', hd2', ih']

/-- Trimming whitespace preserves the presence of a `..` segment. -/
theorem hasParentSeg_trim (s : List Char) (h : hasParentSeg s = true) :
    hasParentSeg (trim s) = true :=
  hasParentAux_trimRight _ true (hasParentSeg_dropWhile_ws s h)

/-- Stripping leading separators preserves the presence of a `..` segment. -/
theorem hasParentSeg_dropWhile_sep (s : List Char) (h : hasParentSeg s = true) :
    hasParentSeg (s.dropWhile isSep) = true := by
  induction s with
  | nil => simp [hasParentSeg, hasParentAux] at h
  | cons c rest ih =>
    by_cases hc : isSep c = true
    · have h' : hasParentSeg rest = true := by
        simpa [hasParentSeg, hasParentAux, hc] using h
      simpa [List.dropWhile_cons, hc] using ih h'
    · have hc' : isSep c = false := by simpa using hc
      simpa [List.dropWhile_cons, hc'] using h

/-- After stripping leading separators a path is never absolute. -/
theorem is_absolute_dropWhile_sep (s : List Char) :
    is_absolute (s.dropWhile isSep) = false := by
  induction s with
  | nil => rfl
  | cons c rest ih =>
    by_cases hc : isSep c = true
    · simpa [List.dropWhile_cons, hc] using ih
    · have hc' : isSep c = false := by simpa using hc
      simp [List.dropWhile_cons, hc', is_absolute]

/-- For a non-empty base, `strip_prefix` recovers the relative part that
`join` appended, edge-trimmed by `Components::as_path`. -/
theorem stripBase_joinPath (base rel : List Char) (hb : base.isEmpty = false) :
    stripBase base (joinPath base rel) = some (asPathTrim rel) := by
  by_cases he : endsWithSep base = true
  · by_cases hr : rel = []
    · subst hr
      simp [joinPath, stripBase, hb, he, asPathTrim, trimRightAsPath, trimLeftAsPath]
    · have hlen : rel.length ≠ 0 := by
        intro h0; exact hr (List.length_eq_zero.mp h0)
      have hne : base ++ rel ≠ base := by
        intro hcontra
        have hl := congrArg List.length hcontra
        simp only [List.length_append] at hl
        omega
      have hpre : base.isPrefixOf (base ++ rel) = true :=
        List.isPrefixOf_iff_prefix.mpr (List.prefix_append base rel)
      simp [joinPath, stripBase, hb, he, hne, hpre, List.drop_left]
  · have he' : endsWithSep base = false := by simpa using he
    have hsplit : base ++ '/' :: rel = (base ++ ['/']) ++ rel := by simp
    have hne : base ++ '/' :: rel ≠ base := by
      intro hcontra
      have hl := congrArg List.length hcontra
      simp only [List.length_append, List.length_cons] at hl
      omega
    have hpre : (base ++ ['/']).isPrefixOf (base ++ '/' :: rel) = true := by
      rw [hsplit]
      exact List.isPrefixOf_iff_prefix.mpr (List.prefix_append _ rel)
    have hdrop : (base ++ '/' :: rel).drop (base ++ ['/']).length = rel := by
      rw [hsplit]; exact List.drop_left _ rel
    simp [joinPath, stripBase, hb, he', hne, hpre, hdrop]

/-! ## Claim theorems -/

/-- C1: every relative path string containing a parent-directory segment `..`
— in any position, delimited by any mix of `/` and `\` separators, which is
what `hasParentSeg` detects — is rejected by `resolve_project_path` with the
path-escape error ("File path cannot navigate upwards", the spec's
`PathEscape`).  The check is purely lexical: `resolve_project_path` is a pure
function of the two strings, with no filesystem access and hence no symlink
resolution. -/
theorem resolve_rejects_parent_segments (base p : List Char)
    (h : hasParentSeg p = true) :
    resolve_project_path base p =
      .error (.message (toChars "File path cannot navigate upwards")) := by
  have htrim : hasParentSeg (trim p) = true := hasParentSeg_trim p h
  have hne : (trim p).isEmpty = false := by
    cases htp : trim p with
    | nil => rw [htp] at htrim; simp [hasParentSeg, hasParentAux] at htrim
    | cons _ _ => rfl
  have habs : is_absolute ((trim p).dropWhile isSep) = false :=
    is_absolute_dropWhile_sep _
  have hpar : hasParentSeg ((trim p).dropWhile isSep) = true :=
    hasParentSeg_dropWhile_sep _ htrim
  simp [resolve_project_path, hne, habs, hpar]

/-- Witness for C1: the traversal attempts `../secret`, `a/..\b` and
` ..\x ` (mixed separators, interior position, surrounding whitespace) are
all rejected with the path-escape error. -/
theorem resolve_rejects_parent_segments_witness :
    hasParentSeg (toChars "a/..\\b") = true ∧
      resolve_project_path (toChars "/p") (toChars "a/..\\b") =
        .error (.message (toChars "File path cannot navigate upwards")) :=
  ⟨by decide, resolve_rejects_parent_segments _ _ (by decide)⟩

/-- Counterexample for C5: the path `./a` is accepted by
`resolve_project_path` (it has no `..` component), but the round-trip yields
`a` — `strip_prefix`'s component iterator trims the leading `.` component
from the remainder — and not the claim's normalized form `./a` (leading
separators stripped, separators normalized to `/`), so the claim as stated
is false. -/
theorem resolve_to_relative_roundtrip_cx :
    resolve_project_path (toChars "/p") (toChars "./a") = .ok (toChars "/p/./a") ∧
      to_relative_string (toChars "/p") (toChars "/p/./a") = .ok (toChars "a") ∧
      toChars "a" ≠ normalizeRel (toChars "./a") :=
  ⟨by decide, by decide, by decide⟩

/-- C5 as amended: for every non-empty project root and every relative path
string `p` accepted by `resolve_project_path`, applying `to_relative_string`
to the root and the resolved result succeeds and yields
`programNormalizeRel p`: the input whitespace-trimmed, with separators
normalized to `/`, and with redundant separators and `.` components removed
from both edges by `strip_prefix`'s component iterator (interior `.`
components and interior redundant separators are preserved). -/
theorem resolve_to_relative_roundtrip (base p abs : List Char)
    (hb : base.isEmpty = false)
    (h : resolve_project_path base p = .ok abs) :
    to_relative_string base abs = .ok (programNormalizeRel p) := by
  simp only [resolve_project_path] at h
  split at h
  · exact absurd h (by simp)
  · split at h
    · exact absurd h (by simp)
    · split at h
      · exact absurd h (by simp)
      · have habs : abs = joinPath base ((trim p).dropWhile isSep) :=
          (Except.ok.inj h).symm
        rw [habs]
        simp [to_relative_string,
          stripBase_joinPath base ((trim p).dropWhile isSep) hb, programNormalizeRel]

/-- Witness for the amended C5: resolving ` /notes\ch1.md ` against root
`/p` and mapping back yields `notes/ch1.md`; resolving `./a/` yields `a`,
showing the edge trimming on a dotted, trailing-separator input. -/
theorem resolve_to_relative_roundtrip_witness :
    ((toChars "/p").isEmpty = false ∧
      resolve_project_path (toChars "/p") (toChars " /notes\\ch1.md ") =
        .ok (toChars "/p/notes\\ch1.md")) ∧
      to_relative_string (toChars "/p") (toChars "/p/notes\\ch1.md") =
        .ok (programNormalizeRel (toChars " /notes\\ch1.md ")) ∧
      programNormalizeRel (toChars " /notes\\ch1.md ") = toChars "notes/ch1.md" ∧
      programNormalizeRel (toChars "./a/") = toChars "a" :=
  ⟨⟨by decide, by decide⟩,
   resolve_to_relative_roundtrip (toChars "/p") (toChars " /notes\\ch1.md ") _
     (by decide) (by decide),
   by decide, by decide⟩

/-- C6: for every directory structure — including ones nested deeper than 8
levels or containing a self-referential symlink, which enter the model as an
arbitrary (possibly cyclic) `fs` oracle over which `build_directory_entries`
is nevertheless a total function — a build call whose depth exceeds
`MAX_TREE_DEPTH = 8` returns `Ok` of an empty sequence rather than failing,
so the listing terminates and degrades gracefully. -/
theorem build_depth_guard (fs : FS) (base dir : List Char) (depth : Nat)
    (h : depth > MAX_TREE_DEPTH) :
    build_directory_entries fs base dir depth = .ok [] := by
  simp [build_directory_entries, h]

/-- Witness for C6: at depth 9 on a filesystem where every directory contains
a subdirectory `loop` (a self-referential link), the build returns empty. -/
theorem build_depth_guard_witness :
    9 > MAX_TREE_DEPTH ∧
      build_directory_entries (fun _ => some [⟨toChars "loop", true⟩])
        (toChars "/p") (toChars "/p") 9 = .ok [] :=
  ⟨by decide, build_depth_guard _ _ _ _ (by decide)⟩

/-- C8: every core operation (transliterate, transcribe file/mic, synthesize,
generate scene, model inventory, list files, load/save markdown, copy asset)
fails with `Unauthorized` when no active session exists; the result is the
same for every value of the filesystem, project-registry and worker oracles,
i.e. the failure occurs before any filesystem or subprocess work begins. -/
theorem operations_require_session :
    (∀ w t, Commands.transliterate_english_to_tamil none w t =
      .error (toChars "Unauthorized")) ∧
    (∀ b, Commands.transcribe_audio_file none b = .error (toChars "Unauthorized")) ∧
    (∀ b, Commands.record_from_microphone none b = .error (toChars "Unauthorized")) ∧
    (∀ b, Commands.synthesize_speech none b = .error (toChars "Unauthorized")) ∧
    (∀ b, Commands.generate_ai_scene none b = .error (toChars "Unauthorized")) ∧
    (∀ b, Commands.refresh_model_inventory none b = .error (toChars "Unauthorized")) ∧
    (∀ pb fs, Commands.list_project_files none pb fs = .error (toChars "Unauthorized")) ∧
    (∀ pb rf p, Commands.load_markdown_file none pb rf p =
      .error (toChars "Unauthorized")) ∧
    (∀ pb p, Commands.save_markdown_file none pb p = .error (toChars "Unauthorized")) ∧
    (∀ pb sf sn se td ex, Commands.copy_project_asset none pb sf sn se td ex =
      .error (toChars "Unauthorized")) :=
  ⟨fun _ _ => rfl, fun _ => rfl, fun _ => rfl, fun _ => rfl, fun _ => rfl, fun _ => rfl,
   fun _ _ => rfl, fun _ _ _ => rfl, fun _ _ => rfl, fun _ _ _ _ _ _ => rfl⟩

/-- C3: for every input that is non-empty after trimming (so the worker is
actually consulted, cf. C4), any worker failure — worker root not found,
spawn failure, non-zero exit or unparsable output, all of which reach the
dispatch as an `Err` from the blocking invocation — is not propagated: the
transliteration returns success with the original input as sole candidate. -/
theorem transliteration_fallback_on_failure (input : List Char) (e : AppError)
    (h : (trim input).isEmpty = false) :
    MlBridge.transliterate_english_to_tamil (.error e) input = .ok [input] := by
  simp [MlBridge.transliterate_english_to_tamil, h, MlBridge.fallback_transliteration]

/-- Witness for C3: a failing worker on input "vanakkam" yields that input
back as the only candidate. -/
theorem transliteration_fallback_on_failure_witness :
    (trim (toChars "vanakkam")).isEmpty = false ∧
      MlBridge.transliterate_english_to_tamil
        (.error (.message (toChars "No such file or directory")))
        (toChars "vanakkam") = .ok [toChars "vanakkam"] :=
  ⟨by decide, transliteration_fallback_on_failure _ _ (by decide)⟩

/-- C4: for every input that is empty or whitespace-only (empty after
trimming), transliteration returns an empty candidate list; the result is
independent of the `worker` oracle, reflecting that the external worker is
never invoked (the short-circuit at `ml_bridge.rs` line 18 precedes the
`spawn_blocking` call and hence any worker-root discovery or spawn). -/
theorem transliteration_empty_input_short_circuit
    (worker : Except AppError (List (List Char))) (input : List Char)
    (h : (trim input).isEmpty = true) :
    MlBridge.transliterate_english_to_tamil worker input = .ok [] := by
  simp [MlBridge.transliterate_english_to_tamil, h]

/-- Witness for C4: whitespace-only input with an arbitrary failing worker. -/
theorem transliteration_empty_input_short_circuit_witness :
    (trim (toChars "  ")).isEmpty = true ∧
      MlBridge.transliterate_english_to_tamil
        (.error (.message (toChars "unused"))) (toChars "  ") = .ok [] :=
  ⟨by decide, transliteration_empty_input_short_circuit _ _ (by decide)⟩

/-- Counterexample for C2: two worker runs that differ only in their exit
code (1 versus 2) produce the *identical* error value, whose message is
`Python STT failed: boom`; the error therefore cannot carry the exit code,
contrary to the claim that `WorkerFailed` carries both the error text and
the exit code. -/
theorem stt_error_ignores_exit_code_cx :
    MlBridge.invoke_python_stt_file Except.ok ⟨1, [], toChars "boom"⟩ =
      MlBridge.invoke_python_stt_file Except.ok ⟨2, [], toChars "boom"⟩ ∧
    MlBridge.invoke_python_stt_file Except.ok ⟨1, [], toChars "boom"⟩ =
      .error (.message (toChars "Python STT failed: boom")) :=
  ⟨rfl, rfl⟩

/-- C2 as amended: when the worker exits non-zero, file and microphone
transcription fail with an error carrying the captured error-stream text —
the message is `Python STT failed: ` followed by the stderr text — but the
exit code is not included in the error. -/
theorem stt_failure_carries_stderr_only
    (pj : List Char → Except (List Char) MlBridge.JsonValue)
    (out : MlBridge.ProcOutput) (h : MlBridge.statusSuccess out = false) :
    MlBridge.invoke_python_stt_file pj out =
      .error (.message (toChars "Python STT failed: " ++ out.stderr)) ∧
    MlBridge.invoke_python_stt_mic pj out =
      .error (.message (toChars "Python STT failed: " ++ out.stderr)) := by
  constructor <;>
    simp [MlBridge.invoke_python_stt_file, MlBridge.invoke_python_stt_mic, h]

/-- Witness for the amended C2: exit code 1 with stderr "boom". -/
theorem stt_failure_carries_stderr_only_witness :
    MlBridge.statusSuccess ⟨1, [], toChars "boom"⟩ = false ∧
      (MlBridge.invoke_python_stt_file Except.ok ⟨1, [], toChars "boom"⟩ =
        .error (.message (toChars "Python STT failed: " ++ toChars "boom")) ∧
       MlBridge.invoke_python_stt_mic Except.ok ⟨1, [], toChars "boom"⟩ =
        .error (.message (toChars "Python STT failed: " ++ toChars "boom"))) :=
  ⟨by decide, stt_failure_carries_stderr_only _ _ (by decide)⟩

/-- C7: importing `a.png` into a target directory already containing `a.png`
and `a-1.png` copies it to `a-2.png` (returned as `assets/images/a-2.png`
relative to the project root): the collision loop appends a numeric suffix
before the extension, starting at 1 and incrementing until a free name is
found.  `sanitize_filename::sanitize` is the identity on the plain name
`a.png`, so it is instantiated with `id`. -/
theorem copy_asset_collision_suffix :
    Commands.copy_project_asset (some ⟨toChars "user"⟩)
      (.ok (toChars "/projects/story")) id (some (toChars "a.png")) true none
      [toChars "a.png", toChars "a-1.png"] =
      .ok (toChars "assets/images/a-2.png") := by decide

/-- C9: a path string that is non-empty and consists only of separator
characters `/` and `\` is accepted by `resolve_project_path`: all leading
separators are stripped, leaving the empty relative path, and the result is
the project root joined with that empty path (the root directory itself,
written with a trailing separator). -/
theorem resolve_separator_only_path (base s : List Char) (h0 : s ≠ [])
    (h : ∀ c ∈ s, isSep c = true) :
    resolve_project_path base s = .ok (joinPath base []) := by
  have htrim : trim s = s := trim_sepOnly s h
  have hdrop : s.dropWhile isSep = [] :=
    List.dropWhile_eq_nil_iff.mpr (fun x hx => h x hx)
  obtain ⟨c, rest, rfl⟩ : ∃ c rest, s = c :: rest := by
    cases s with
    | nil => exact absurd rfl h0
    | cons c rest => exact ⟨c, rest, rfl⟩
  simp [resolve_project_path, htrim, hdrop, is_absolute, hasParentSeg, hasParentAux]

/-- Witness for C9: `resolve` on the lone separator string "/" returns the
root joined with the empty relative path. -/
theorem resolve_separator_only_path_witness :
    toChars "/" ≠ [] ∧ (∀ c ∈ toChars "/", isSep c = true) ∧
      resolve_project_path (toChars "/r") (toChars "/") =
        .ok (joinPath (toChars "/r") []) :=
  ⟨by decide, by decide, resolve_separator_only_path _ _ (by decide) (by decide)⟩

/-- C10: for every relative file path accepted by `resolve`, loading a
markdown file whose resolved absolute path does not exist on disk succeeds
with empty content instead of failing with a not-found error. -/
theorem load_missing_markdown_empty (u : UserProfile) (base p target : List Char)
    (readFile : List Char → Option (List Char))
    (hres : resolve_project_path base p = .ok target)
    (hmiss : readFile target = none) :
    Commands.load_markdown_file (some u) (.ok base) readFile p = .ok [] := by
  simp [Commands.load_markdown_file, Commands.require_session, hres, hmiss]

/-- Witness for C10: loading `notes.md` from a project whose filesystem has
no files yields empty content. -/
theorem load_missing_markdown_empty_witness :
    resolve_project_path (toChars "/p") (toChars "notes.md") =
        .ok (toChars "/p/notes.md") ∧
      (fun _ : List Char => (none : Option (List Char))) (toChars "/p/notes.md") = none ∧
      Commands.load_markdown_file (some ⟨toChars "u"⟩) (.ok (toChars "/p"))
        (fun _ => none) (toChars "notes.md") = .ok [] :=
  ⟨by decide, rfl,
   load_missing_markdown_empty ⟨toChars "u"⟩ (toChars "/p") (toChars "notes.md")
     (toChars "/p/notes.md") (fun _ => none) (by decide) rfl⟩

end Scriptwriter
